import Mathlib

/-!
Formal model of the clearvoice serverless audio-enhancement handlers.

The repository consists of two near-duplicate request-handler scripts,
`handler.py` and `clearvoice/main.py`.  Both thread an audio file through an
ordered list of (task, model_name) enhancement steps, writing one intermediate
file per step, and finally relocate the last file to a designated output path
with `shutil.copy`.  External collaborators (the ClearVoice model library,
ffmpeg transcoding, HTTP download, base64 decoding/encoding) are modelled as
function parameters; the file system is modelled as a map from path strings to
file contents.

Naming convention: definitions ending in `_py` embed `handler.py`; definitions
ending in `_main` embed `clearvoice/main.py`; definitions shared verbatim by
the two files (`process_audio`, `ensure_wav_format`, the pipeline loop) are
defined once.
-/

set_option maxHeartbeats 1000000
set_option maxRecDepth 4000

/-- File contents: a sequence of bytes (abstracted as naturals). -/
abbrev Bytes := List Nat

/-- The file system: a map from absolute/relative path strings to contents.
`none` means no file exists at that path. -/
abbrev FS := String → Option Bytes

/-- Reading a file. -/
def fsRead (fs : FS) (p : String) : Option Bytes := fs p

/-- Writing (creating or overwriting) a file. -/
def fsWrite (fs : FS) (p : String) (b : Bytes) : FS :=
  fun q => if q = p then some b else fs q

/-- The empty file system. -/
def fsEmpty : FS := fun _ => none

/-- Exceptions that the embedded code can raise. -/
inductive Err where
  | modelFailure (msg : String)
  | sameFile (src dst : String)
  | missingFile (p : String)
  deriving DecidableEq

/-- `str(e)` for an exception, as used when handlers build error responses. -/
def errMessage : Err → String
  | .modelFailure msg => msg
  | .sameFile src dst => src ++ (" and ") ++ dst ++ (" are the same file")
  | .missingFile p => ("No such file or directory: ") ++ p

/-- The ClearVoice enhancement-model collaborator:
`task → model_name → input bytes → enhanced bytes`, or a raised exception
message (e.g. for a non-existent model identifier). -/
abbrev EnhModel := String → String → Bytes → Except String Bytes

/-- The ffmpeg transcoding collaborator used by `ensure_wav_format`:
`none` models a `subprocess.SubprocessError`. -/
abbrev Transcode := Bytes → Option Bytes

/-- The HTTP download collaborator (`requests.get`). -/
abbrev Download := String → Except String Bytes

/-- The base64 decoding collaborator (`base64.b64decode`). -/
abbrev B64Decode := String → Except String Bytes

/-- The base64 encoding collaborator (b64encode decoded to a UTF-8 string). -/
abbrev B64Encode := Bytes → String

/-! ### Path-string helpers (`os.path`) -/

/-- Python startswith applied to a slash. -/
def startsSlash (s : String) : Bool := s.data.head? = some ('/')

/-- Python endswith applied to a slash. -/
def endsSlash (s : String) : Bool := s.data.getLast? = some ('/')

/-- `os.path.join(a, b)` for our (POSIX, single-component) uses. -/
def osJoin (a b : String) : String :=
  if startsSlash b then b
  else if a = ("") then b
  else if endsSlash a then a ++ b
  else a ++ ("/") ++ b

/-- The characters of `os.path.basename p`: everything after the last slash. -/
def basenameChars (l : List Char) : List Char :=
  (l.reverse.takeWhile (fun c => c ≠ '/')).reverse

/-- `os.path.basename`. -/
def basenameStr (p : String) : String := ⟨basenameChars p.data⟩

/-- `os.path.splitext` applied to a basename: returns the extension part
(including the dot), honouring Python's rule that leading dots of the
basename never start an extension. -/
def splitExtChars (base : List Char) : List Char :=
  let sufRev := base.reverse.takeWhile (fun c => c ≠ '.')
  if sufRev.length = base.length then []
  else
    let dotIdx := base.length - sufRev.length - 1
    if (base.take dotIdx).any (fun c => c ≠ '.') then base.drop dotIdx
    else []

/-- `os.path.splitext(p)[1]`. -/
def splitextExt (p : String) : String := ⟨splitExtChars (basenameChars p.data)⟩

/-- `os.path.splitext(p)[1].lower()`. -/
def extLower (p : String) : String :=
  ⟨(splitExtChars (basenameChars p.data)).map Char.toLower⟩

/-- The basename rsplit on its last dot, first part kept: the basename with
its part after the last dot removed (the whole basename if it has no dot). -/
def stemChars (base : List Char) : List Char :=
  let sufRev := base.reverse.takeWhile (fun c => c ≠ '.')
  if sufRev.length = base.length then base
  else base.take (base.length - sufRev.length - 1)

/-- The converted-WAV file name built by `ensure_wav_format`: the basename
of the input path with its final extension replaced by the wav one. -/
def wavName (p : String) : String := (⟨stemChars (basenameChars p.data)⟩ : String) ++ (".wav")

/-! ### Decimal rendering of naturals (Python `str(i)` inside f-strings) -/

/-- The decimal digit character for `n % 10`. -/
def digitChar10 : Nat → Char
  | 0 => '0' | 1 => '1' | 2 => '2' | 3 => '3' | 4 => '4'
  | 5 => '5' | 6 => '6' | 7 => '7' | 8 => '8' | _ => '9'

/-- Fuelled decimal-digit accumulator (fuel `n+1` always suffices). -/
def decDigitsCore : Nat → Nat → List Char → List Char
  | 0, _, acc => acc
  | fuel+1, n, acc =>
    let d := digitChar10 (n % 10)
    if n / 10 = 0 then d :: acc
    else decDigitsCore fuel (n / 10) (d :: acc)

/-- Python `str(n)` for a natural number. -/
def pyStr (n : Nat) : String := ⟨decDigitsCore (n+1) n []⟩

/-- The decimal digits of `n`, most significant first: the fuel-free
specification of `decDigitsCore`. -/
def digitsOf (n : Nat) : List Char :=
  if _h : n < 10 then [digitChar10 n]
  else digitsOf (n / 10) ++ [digitChar10 (n % 10)]
decreasing_by exact Nat.div_lt_self (by omega) (by omega)

/-- The numeric value of a decimal digit character. -/
def digitVal : Char → Nat
  | '0' => 0 | '1' => 1 | '2' => 2 | '3' => 3 | '4' => 4
  | '5' => 5 | '6' => 6 | '7' => 7 | '8' => 8 | '9' => 9 | _ => 0

/-- The numeric value of a decimal digit string, most significant first. -/
def decVal (l : List Char) : Nat := l.foldl (fun a c => a * 10 + digitVal c) 0

/-! ### Shared pipeline code (`enhance_audio` loop, `process_audio`,
`ensure_wav_format`, `shutil.copy`) -/

/-- One pipeline step: a Python dict with a task and a model_name key. -/
structure StepSpec where
  task : String
  model_name : String
  deriving DecidableEq

/-- `shutil.copy(src, dst)`: raises `SameFileError` when source and
destination are the same file, `FileNotFoundError` when the source does not
exist, and otherwise copies the bytes. -/
def shutilCopy (fs : FS) (src dst : String) : Except Err FS :=
  if src = dst then .error (.sameFile src dst)
  else
    match fsRead fs src with
    | none => .error (.missingFile src)
    | some b => .ok (fsWrite fs dst b)

/-- `process_audio(task, model_name, input_path, output_path)`: run one
ClearVoice model over the current file and write the result.  A raised
collaborator exception propagates (`main.py` logs and re-raises; `handler.py`
does not catch at all). -/
def process_audio (m : EnhModel) (fs : FS) (task model_name inp outp : String) :
    Except Err FS :=
  match fsRead fs inp with
  | none => .error (.missingFile inp)
  | some b =>
    match m task model_name b with
    | .error e => .error (.modelFailure e)
    | .ok ob => .ok (fsWrite fs outp ob)

/-- The scratch file name built per step: `intermediate_` then `str(i)` then
an underscore then the model name then `.wav` (the f-string in the loop). -/
def intermediateName (i : Nat) (model_name : String) : String :=
  ("intermediate_") ++ pyStr i ++ ("_") ++ model_name ++ (".wav")

/-- The full intermediate path for step `i`. -/
def intermediatePath (d : String) (i : Nat) (model_name : String) : String :=
  osJoin d (intermediateName i model_name)

/-- The log line printed before each model invocation: `Step ` then `str(i+1)`
then the task and the model name. -/
def stepLog (i : Nat) (s : StepSpec) : String :=
  ("Step ") ++ pyStr (i+1) ++ (": ") ++ s.task ++ (" using ") ++ s.model_name

/-- The result of running the `for i, model_info in enumerate(model_pipeline)`
loop (or of `enhance_audio` as a whole). -/
structure PipeResult where
  /-- The exception that aborted the run, if any. -/
  err : Option Err
  /-- The file system after the run. -/
  fs : FS
  /-- The `current_file` cursor when the loop stopped. -/
  cur : String
  /-- Log lines emitted, in order. -/
  plog : List String
  /-- Intermediate paths successfully written, in order. -/
  written : List String

/-- The pipeline loop shared by both `enhance_audio` variants: step `i` reads
the current file, applies the model, writes the step's intermediate file,
and advances the cursor; the first raised exception aborts the loop. -/
def runPipeline (m : EnhModel) (d : String) :
    FS → String → Nat → List StepSpec → PipeResult
  | fs, cur, _, [] => ⟨none, fs, cur, [], []⟩
  | fs, cur, i, s :: rest =>
    let ip := intermediatePath d i s.model_name
    match process_audio m fs s.task s.model_name cur ip with
    | .error e => ⟨some e, fs, cur, [stepLog i s], []⟩
    | .ok fs1 =>
      let r := runPipeline m d fs1 ip (i+1) rest
      ⟨r.err, r.fs, r.cur, stepLog i s :: r.plog, ip :: r.written⟩

/-- `ensure_wav_format(input_path, temp_dir)` (identical in both files):
return the input path unchanged when its lowercased extension is `.wav`;
otherwise transcode with ffmpeg into `temp_dir` and return the new path, or
fall back to returning the original path when the ffmpeg call raises a
`SubprocessError` (including a missing input file). -/
def ensure_wav_format (t : Transcode) (fs : FS) (inputPath tempDir : String) :
    FS × String :=
  if extLower inputPath = (".wav") then (fs, inputPath)
  else
    let wavPath := osJoin tempDir (wavName inputPath)
    match fsRead fs inputPath with
    | none => (fs, inputPath)
    | some b =>
      match t b with
      | none => (fs, inputPath)
      | some wb => (fsWrite fs wavPath wb, wavPath)

/-- The outcome of one `enhance_audio` call. -/
structure EnhanceResult where
  /-- The exception propagated out of `enhance_audio`, if any. -/
  err : Option Err
  /-- The file system afterwards. -/
  fs : FS
  /-- Log lines. -/
  plog : List String
  /-- Intermediate paths written. -/
  written : List String

/-- `enhance_audio` from `clearvoice/main.py` (lines 15-54): run the loop
starting from `input_path`, then `shutil.copy` the final cursor file to
`output_path`. -/
def enhance_audio_main (m : EnhModel) (fs : FS) (inp outp : String)
    (pipeline : List StepSpec) (d : String) : EnhanceResult :=
  let r := runPipeline m d fs inp 0 pipeline
  match r.err with
  | some e => ⟨some e, r.fs, r.plog, r.written⟩
  | none =>
    match shutilCopy r.fs r.cur outp with
    | .error e => ⟨some e, r.fs, r.plog, r.written⟩
    | .ok fs2 => ⟨none, fs2, r.plog, r.written⟩

/-- `enhance_audio` from `handler.py` (lines 47-86): identical to the
`main.py` variant except that the input is first passed through
`ensure_wav_format`. -/
def enhance_audio_py (m : EnhModel) (t : Transcode) (fs : FS) (inp outp : String)
    (pipeline : List StepSpec) (d : String) : EnhanceResult :=
  let fw := ensure_wav_format t fs inp d
  let r := runPipeline m d fw.1 fw.2 0 pipeline
  match r.err with
  | some e => ⟨some e, r.fs, r.plog, r.written⟩
  | none =>
    match shutilCopy r.fs r.cur outp with
    | .error e => ⟨some e, r.fs, r.plog, r.written⟩
    | .ok fs2 => ⟨none, fs2, r.plog, r.written⟩

/-! ### Specification-side helpers describing the loop's behaviour -/

/-- The pure data flow of a pipeline: thread the byte content through the
model collaborator, step by step. -/
def foldBytes (m : EnhModel) : Bytes → List StepSpec → Except String Bytes
  | b, [] => .ok b
  | b, s :: rest =>
    match m s.task s.model_name b with
    | .error e => .error e
    | .ok b1 => foldBytes m b1 rest

/-- The intermediate paths a pipeline writes, in step order. -/
def pipePaths (d : String) : Nat → List StepSpec → List String
  | _, [] => []
  | i, s :: rest => intermediatePath d i s.model_name :: pipePaths d (i+1) rest

/-- The log lines a pipeline emits on full success, in step order. -/
def pipeLog : Nat → List StepSpec → List String
  | _, [] => []
  | i, s :: rest => stepLog i s :: pipeLog (i+1) rest

/-- The cursor file after a fully successful pipeline: the input itself for an
empty pipeline, else the last intermediate path. -/
def lastFile (d : String) : Nat → String → List StepSpec → String
  | _, cur, [] => cur
  | i, _, s :: rest => lastFile d (i+1) (intermediatePath d i s.model_name) rest

/-! ### Request events and the two serverless handlers -/

/-- A request event's `input` object.  `audio_file = some (some p)` models a
dict with a `local_path`; `audio_file = some none` models a present but
malformed `audio_file` value (not a dict with `local_path`). -/
structure ReqEvent where
  audio_file : Option (Option String)
  input_url : Option String
  input_data : Option String
  audio : Option String
  model_pipeline : Option (List StepSpec)
  return_type : Option String
  deriving DecidableEq

/-- The compound condition checking that the audio_file field is present and
is a dict carrying a local_path key. -/
def validUpload : Option (Option String) → Option String
  | some (some p) => some p
  | _ => none

/-- Python truthiness for an optional string field (`and input_data[...]`):
a present empty string is falsy. -/
def presentNonEmpty : Option String → Option String
  | some s => if s = ("") then none else some s
  | none => none

/-- The default three-step pipeline, declared identically in both files. -/
def default_pipeline : List StepSpec :=
  [⟨("speech_enhancement"), ("MossFormer2_SE_48K")⟩,
   ⟨("speech_super_resolution"), ("MossFormer2_SR_48K")⟩,
   ⟨("speech_enhancement"), ("MossFormer2_SE_48K")⟩]

/-- Externally observable collaborator calls made while resolving the input
source. -/
inductive FetchAction where
  | download (url : String)
  | decodeB64 (payload : String)
  deriving DecidableEq

/-- Which audio source a handler ended up using. -/
inductive SourceTag where
  | upload
  | url
  | inlineData
  deriving DecidableEq

/-- A handler's response value. -/
inductive HResponse where
  | okPy (file_path : String) (audio_data : String) (models_used : List String)
      (original_format : String)
  | okMain (pipeline_used : List StepSpec) (enhanced_audio : Option String)
      (file_path : Option String)
  | errorMsg (msg : String)
  deriving DecidableEq

/-- How a handler invocation ended: a returned response object, or an
exception that escaped the handler function. -/
inductive HandlerOutcome where
  | returned (resp : HResponse)
  | crashed (msg : String)
  deriving DecidableEq

/-- Full observable record of one handler invocation. -/
structure HandlerRun where
  outcome : HandlerOutcome
  fs : FS
  actions : List FetchAction
  source : Option SourceTag

/-- `shutil.rmtree(d)`: delete every file under directory `d`. -/
def rmtree (d : String) (fs : FS) : FS :=
  fun p => if List.isPrefixOf (d ++ ("/")).data p.data then none else fs p

/-- The part of `handler.py`'s `handler` inside its `try` block, entered after
input resolution succeeded: run `enhance_audio`, read the output file, build
the success response; any exception becomes an error response. -/
def handlerPyTry (m : EnhModel) (t : Transcode) (enc : B64Encode)
    (ev : ReqEvent) (fs1 : FS) (inputPath outputPath : String)
    (src : SourceTag) (acts : List FetchAction) : HandlerRun :=
  let pl := ev.model_pipeline.getD default_pipeline
  let r := enhance_audio_py m t fs1 inputPath outputPath pl ("temp")
  match r.err with
  | some e => ⟨.returned (.errorMsg (errMessage e)), r.fs, acts, some src⟩
  | none =>
    match fsRead r.fs outputPath with
    | none => ⟨.returned (.errorMsg (errMessage (.missingFile outputPath))), r.fs,
        acts, some src⟩
    | some ob => ⟨.returned (.okPy outputPath (enc ob)
        (pl.map StepSpec.model_name) (extLower inputPath)), r.fs, acts, some src⟩

/-- `handler` from `handler.py` (lines 103-177).  Input resolution (URL
download, base64 decode) happens before the `try` block, so a collaborator
exception raised there escapes the handler (`HandlerOutcome.crashed`). -/
def handler_py (m : EnhModel) (t : Transcode) (dl : Download) (b64 : B64Decode)
    (enc : B64Encode) (fs : FS) (ev : ReqEvent) (ts : String) : HandlerRun :=
  let outputPath := ("outputs/output_") ++ ts ++ (".wav")
  match validUpload ev.audio_file with
  | some p => handlerPyTry m t enc ev fs p outputPath .upload []
  | none =>
    match ev.input_url with
    | some u =>
      let ext := splitextExt u
      let ext1 := if ext = ("") then (".wav") else ext
      let ip := ("inputs/input_") ++ ts ++ ext1
      match dl u with
      | .error e => ⟨.crashed e, fs, [.download u], some .url⟩
      | .ok bs => handlerPyTry m t enc ev (fsWrite fs ip bs) ip outputPath .url
          [.download u]
    | none =>
      match ev.input_data with
      | some dta =>
        let ip := ("inputs/input_") ++ ts ++ (".wav")
        match b64 dta with
        | .error e => ⟨.crashed e, fs, [.decodeB64 dta], some .inlineData⟩
        | .ok bs => handlerPyTry m t enc ev (fsWrite fs ip bs) ip outputPath
            .inlineData [.decodeB64 dta]
      | none =>
        ⟨.returned (.errorMsg ("No input audio provided. Please provide audio_file upload, input_url, or input_data")),
          fs, [], none⟩

/-- The response-packaging tail of `main.py`'s handler: base64 mode reads and
encodes the output file and removes the scratch tree; file mode copies the
output to the tmp root and keeps the scratch tree only when return_type is file. -/
def handlerMainFinish (enc : B64Encode) (pl : List StepSpec) (rt : String)
    (fsE : FS) (op td : String) (acts : List FetchAction) (src : Option SourceTag) :
    HandlerRun :=
  if rt = ("base64") then
    match fsRead fsE op with
    | none => ⟨.returned (.errorMsg (errMessage (.missingFile op))), fsE, acts, src⟩
    | some ob => ⟨.returned (.okMain pl (some (enc ob)) none), rmtree td fsE, acts, src⟩
  else
    let fop := osJoin ("/tmp") (("enhanced_audio_") ++ basenameStr op)
    match shutilCopy fsE op fop with
    | .error e => ⟨.returned (.errorMsg (errMessage e)), fsE, acts, src⟩
    | .ok fs2 =>
      let fs3 := if rt ≠ ("file") then rmtree td fs2 else fs2
      ⟨.returned (.okMain pl none (some fop)), fs3, acts, src⟩

/-- The pipeline-and-packaging part of `main.py`'s handler, after the input
source was resolved to `ipath`. -/
def handlerMainRun (m : EnhModel) (enc : B64Encode) (pl : List StepSpec)
    (rt : String) (fs1 : FS) (ipath op td : String) (src : SourceTag)
    (acts : List FetchAction) : HandlerRun :=
  let r := enhance_audio_main m fs1 ipath op pl (osJoin td ("intermediates"))
  match r.err with
  | some e => ⟨.returned (.errorMsg (errMessage e)), r.fs, acts, some src⟩
  | none => handlerMainFinish enc pl rt r.fs op td acts (some src)

/-- `handler` from `clearvoice/main.py` (lines 157-253).  The whole body sits
inside one `try`/`except Exception` block, so every raised exception is
converted into an error response; `td` is the fresh `tempfile.mkdtemp()`
directory. -/
def handler_main (m : EnhModel) (t : Transcode) (dl : Download) (b64 : B64Decode)
    (enc : B64Encode) (fs : FS) (ev : ReqEvent) (td : String) : HandlerRun :=
  let ip := osJoin td ("input_audio.wav")
  let op := osJoin td ("enhanced_audio.wav")
  let pl := ev.model_pipeline.getD default_pipeline
  let rt := ev.return_type.getD ("base64")
  match validUpload ev.audio_file with
  | some p =>
    let fw := ensure_wav_format t fs p td
    handlerMainRun m enc pl rt fw.1 fw.2 op td .upload []
  | none =>
    match presentNonEmpty ev.input_url with
    | some u =>
      let dp := osJoin td ("downloaded_file")
      match dl u with
      | .error e => ⟨.returned (.errorMsg e), fs, [.download u], some .url⟩
      | .ok bs =>
        let fw := ensure_wav_format t (fsWrite fs dp bs) dp td
        handlerMainRun m enc pl rt fw.1 fw.2 op td .url [.download u]
    | none =>
      match presentNonEmpty ev.audio with
      | some a =>
        match b64 a with
        | .error e => ⟨.returned (.errorMsg e), fs, [.decodeB64 a], some .inlineData⟩
        | .ok bs => handlerMainRun m enc pl rt (fsWrite fs ip bs) ip op td
            .inlineData [.decodeB64 a]
      | none =>
        ⟨.returned (.errorMsg ("No audio input provided. Please provide audio_file, input_url, or audio")),
          fs, [], none⟩

/-! ### Concrete instances used by witnesses and counterexamples -/

/-- A model collaborator that succeeds on every step, appending a marker byte. -/
def mGood : EnhModel := fun _ _ b => .ok (b ++ [1])

/-- A model collaborator that raises only for the model identifier
`NonExistentModel`. -/
def mBad : EnhModel := fun _ name b =>
  if name = ("NonExistentModel") then .error (("model not found: ") ++ name)
  else .ok (b ++ [1])

/-- A model collaborator whose exception message (`boom`) carries no step
information; it succeeds only for the identifier `GoodModel`. -/
def mBoom : EnhModel := fun _ name b =>
  if name = ("GoodModel") then .ok (b ++ [2]) else .error ("boom")

/-- A transcoder that always produces the fixed byte string `[9]`. -/
def t9 : Transcode := fun _ => some [9]

/-- A transcoder that always fails (ffmpeg raising `SubprocessError`). -/
def tFail : Transcode := fun _ => none

/-- A file system holding one WAV input file. -/
def fsIn : FS := fsWrite fsEmpty ("in.wav") [1, 2]

/-- A file system holding one MP3 input file. -/
def fsMp3 : FS := fsWrite fsEmpty ("inputs/a.mp3") [1, 2]

/-- A request event supplying only a remote URL. -/
def evUrl : ReqEvent := ⟨none, some ("http://host/a.wav"), none, none, none, none⟩

/-- A request event supplying all three audio sources at once. -/
def evAll : ReqEvent :=
  ⟨some (some ("up.wav")), some ("http://host/a.wav"), some ("ZGF0YQ"),
    some ("ZGF0YQ"), some [⟨("speech_enhancement"), ("M")⟩], none⟩

/-- A download collaborator that always raises (unreachable host). -/
def dlFail : Download := fun _ => .error ("connection refused")

/-- A base64 decoder that always succeeds with fixed bytes. -/
def b64Ok : B64Decode := fun _ => .ok [3, 4]

/-- A trivial base64 encoder. -/
def encX : B64Encode := fun _ => ("encoded")

/-! ### String and decimal-digit lemmas -/

theorem strExt {a b : String} (h : a.data = b.data) : a = b := by
  cases a; cases b; exact congrArg String.mk h

theorem strAppend_left_cancel {s x y : String} (h : s ++ x = s ++ y) : x = y := by
  have hd := congrArg String.data h
  simp only [String.data_append] at hd
  exact strExt (List.append_cancel_left hd)

theorem digitChar10_val : ∀ k, k < 10 → digitVal (digitChar10 k) = k := by decide

theorem digitChar10_ne_underscore (k : Nat) : digitChar10 k ≠ '_' := by
  unfold digitChar10; split <;> decide

theorem digitsOf_no_underscore (n : Nat) : ∀ c ∈ digitsOf n, c ≠ '_' := by
  induction n using Nat.strong_induction_on with
  | _ n ih =>
    rw [digitsOf]
    split
    · intro c hc
      simp only [List.mem_singleton] at hc
      subst hc; exact digitChar10_ne_underscore n
    · rename_i h
      intro c hc
      rw [List.mem_append] at hc
      rcases hc with hc | hc
      · exact ih (n / 10) (Nat.div_lt_self (by omega) (by omega)) c hc
      · simp only [List.mem_singleton] at hc
        subst hc; exact digitChar10_ne_underscore (n % 10)

theorem decVal_append_one (l : List Char) (c : Char) :
    decVal (l ++ [c]) = decVal l * 10 + digitVal c := by
  simp [decVal, List.foldl_append]

theorem decVal_digitsOf (n : Nat) : decVal (digitsOf n) = n := by
  induction n using Nat.strong_induction_on with
  | _ n ih =>
    rw [digitsOf]
    split
    · rename_i h
      have hv := digitChar10_val n h
      simp [decVal, hv]
    · rename_i h
      rw [decVal_append_one, ih (n / 10) (Nat.div_lt_self (by omega) (by omega)),
        digitChar10_val (n % 10) (by omega)]
      omega

theorem digitsOf_inj {a b : Nat} (h : digitsOf a = digitsOf b) : a = b := by
  rw [← decVal_digitsOf a, h, decVal_digitsOf]

theorem decDigitsCore_eq : ∀ fuel n acc, n ≤ fuel →
    decDigitsCore (fuel + 1) n acc = digitsOf n ++ acc := by
  intro fuel
  induction fuel with
  | zero =>
    intro n acc h
    interval_cases n
    rw [digitsOf]
    rfl
  | succ f ih =>
    intro n acc h
    have hstep : decDigitsCore (f + 1 + 1) n acc =
        if n / 10 = 0 then digitChar10 (n % 10) :: acc
        else decDigitsCore (f + 1) (n / 10) (digitChar10 (n % 10) :: acc) := rfl
    by_cases h10 : n / 10 = 0
    · have hn : n < 10 := by omega
      have hmod : n % 10 = n := by omega
      rw [hstep, if_pos h10, digitsOf]
      simp [hn, hmod]
    · rw [hstep, if_neg h10, ih (n / 10) _ (by omega)]
      conv_rhs => rw [digitsOf]
      have hn : ¬ n < 10 := by omega
      simp [hn]

theorem pyStr_data (n : Nat) : (pyStr n).data = digitsOf n := by
  show decDigitsCore (n + 1) n [] = digitsOf n
  rw [decDigitsCore_eq n n [] (Nat.le_refl n)]
  simp

theorem underscore_split (l1 : List Char) : ∀ l2 r1 r2 : List Char,
    (∀ c ∈ l1, c ≠ '_') → (∀ c ∈ l2, c ≠ '_') →
    l1 ++ '_' :: r1 = l2 ++ '_' :: r2 → l1 = l2 ∧ r1 = r2 := by
  induction l1 with
  | nil =>
    intro l2 r1 r2 _ h2 he
    cases l2 with
    | nil => simpa using he
    | cons c t =>
      simp only [List.nil_append, List.cons_append, List.cons.injEq] at he
      exact absurd he.1.symm (h2 c (by simp))
  | cons a t1 ih =>
    intro l2 r1 r2 h1 h2 he
    cases l2 with
    | nil =>
      simp only [List.nil_append, List.cons_append, List.cons.injEq] at he
      exact absurd he.1 (h1 a (by simp))
    | cons b t2 =>
      simp only [List.cons_append, List.cons.injEq] at he
      obtain ⟨hab, ht⟩ := he
      obtain ⟨h3, h4⟩ := ih t2 r1 r2 (fun c hc => h1 c (by simp [hc]))
        (fun c hc => h2 c (by simp [hc])) ht
      exact ⟨by rw [hab, h3], h4⟩

theorem intermediateName_inj {i j : Nat} {a b : String}
    (h : intermediateName i a = intermediateName j b) : i = j := by
  have hd := congrArg String.data h
  simp only [intermediateName, String.data_append, List.append_assoc] at hd
  have hd2 := List.append_cancel_left hd
  rw [pyStr_data, pyStr_data] at hd2
  simp only [List.singleton_append] at hd2
  exact digitsOf_inj (underscore_split (digitsOf i) (digitsOf j) _ _
    (digitsOf_no_underscore i) (digitsOf_no_underscore j) hd2).1

theorem startsSlash_intermediateName (i : Nat) (a : String) :
    startsSlash (intermediateName i a) = false := by
  have hd : (intermediateName i a).data
      = 'i' :: (("ntermediate_" : String).data ++ (pyStr i).data
        ++ (("_" : String)).data ++ a.data ++ ((".wav" : String)).data) := by
    simp only [intermediateName, String.data_append, List.append_assoc]
    rfl
  simp [startsSlash, hd]

theorem osJoin_right_inj {d x y : String}
    (hx : startsSlash x = false) (hy : startsSlash y = false)
    (h : osJoin d x = osJoin d y) : x = y := by
  unfold osJoin at h
  rw [hx, hy] at h
  simp only [Bool.false_eq_true, if_false] at h
  by_cases hd : d = ("")
  · simpa [hd] using h
  · rw [if_neg hd, if_neg hd] at h
    by_cases he : endsSlash d
    · rw [if_pos he, if_pos he] at h
      exact strAppend_left_cancel h
    · rw [if_neg he, if_neg he] at h
      exact strAppend_left_cancel (strAppend_left_cancel
        (by rwa [String.append_assoc, String.append_assoc] at h))

theorem intermediatePath_inj {d : String} {i j : Nat} {a b : String}
    (hij : i ≠ j) : intermediatePath d i a ≠ intermediatePath d j b := by
  intro h
  exact hij (intermediateName_inj (osJoin_right_inj
    (startsSlash_intermediateName i a) (startsSlash_intermediateName j b) h))

/-! ### Pipeline-loop characterization -/

theorem fsRead_write_self (fs : FS) (p : String) (b : Bytes) :
    fsRead (fsWrite fs p b) p = some b := by
  simp [fsRead, fsWrite]

theorem fsRead_write_other (fs : FS) (p q : String) (b : Bytes) (h : q ≠ p) :
    fsRead (fsWrite fs p b) q = fsRead fs q := by
  simp [fsRead, fsWrite, h]

theorem runPipeline_ok (m : EnhModel) (d : String) :
    ∀ (steps : List StepSpec) (fs : FS) (cur : String) (i : Nat) (b out : Bytes),
    fsRead fs cur = some b → foldBytes m b steps = .ok out →
    (runPipeline m d fs cur i steps).err = none ∧
    (runPipeline m d fs cur i steps).cur = lastFile d i cur steps ∧
    (runPipeline m d fs cur i steps).written = pipePaths d i steps ∧
    (runPipeline m d fs cur i steps).plog = pipeLog i steps ∧
    fsRead (runPipeline m d fs cur i steps).fs (lastFile d i cur steps) = some out ∧
    ∀ p, ¬ p ∈ pipePaths d i steps →
      fsRead (runPipeline m d fs cur i steps).fs p = fsRead fs p := by
  intro steps
  induction steps with
  | nil =>
    intro fs cur i b out hr hf
    simp only [foldBytes] at hf
    injection hf with hbo
    subst hbo
    exact ⟨rfl, rfl, rfl, rfl, hr, fun p _ => rfl⟩
  | cons s rest ih =>
    intro fs cur i b out hr hf
    simp only [foldBytes] at hf
    cases hm : m s.task s.model_name b with
    | error e0 => rw [hm] at hf; cases hf
    | ok b1 =>
      rw [hm] at hf
      have hpa : process_audio m fs s.task s.model_name cur (intermediatePath d i s.model_name)
          = .ok (fsWrite fs (intermediatePath d i s.model_name) b1) := by
        simp [process_audio, hr, hm]
      have key : runPipeline m d fs cur i (s :: rest) =
          { err := (runPipeline m d (fsWrite fs (intermediatePath d i s.model_name) b1)
              (intermediatePath d i s.model_name) (i+1) rest).err,
            fs := (runPipeline m d (fsWrite fs (intermediatePath d i s.model_name) b1)
              (intermediatePath d i s.model_name) (i+1) rest).fs,
            cur := (runPipeline m d (fsWrite fs (intermediatePath d i s.model_name) b1)
              (intermediatePath d i s.model_name) (i+1) rest).cur,
            plog := stepLog i s :: (runPipeline m d (fsWrite fs (intermediatePath d i s.model_name) b1)
              (intermediatePath d i s.model_name) (i+1) rest).plog,
            written := intermediatePath d i s.model_name ::
              (runPipeline m d (fsWrite fs (intermediatePath d i s.model_name) b1)
              (intermediatePath d i s.model_name) (i+1) rest).written } := by
        simp only [runPipeline]
        rw [hpa]
      obtain ⟨e1, e2, e3, e4, e5, e6⟩ := ih (fsWrite fs (intermediatePath d i s.model_name) b1)
        (intermediatePath d i s.model_name) (i+1) b1 out (fsRead_write_self _ _ _) hf
      rw [key]
      refine ⟨e1, ?_, ?_, ?_, ?_, ?_⟩
      · simpa [lastFile] using e2
      · simpa [pipePaths] using e3
      · simpa [pipeLog] using e4
      · simpa [lastFile] using e5
      · intro p hp
        simp only [pipePaths, List.mem_cons, not_or] at hp
        rw [e6 p hp.2, fsRead_write_other _ _ _ _ hp.1]

theorem runPipeline_fail (m : EnhModel) (d : String) :
    ∀ (pre : List StepSpec) (s : StepSpec) (suf : List StepSpec)
      (fs : FS) (cur : String) (i : Nat) (b b1 : Bytes) (e : String),
    fsRead fs cur = some b → foldBytes m b pre = .ok b1 →
    m s.task s.model_name b1 = .error e →
    (runPipeline m d fs cur i (pre ++ s :: suf)).err = some (.modelFailure e) ∧
    (runPipeline m d fs cur i (pre ++ s :: suf)).written = pipePaths d i pre ∧
    (runPipeline m d fs cur i (pre ++ s :: suf)).plog
      = pipeLog i pre ++ [stepLog (i + pre.length) s] ∧
    ∀ p, ¬ p ∈ pipePaths d i pre →
      fsRead (runPipeline m d fs cur i (pre ++ s :: suf)).fs p = fsRead fs p := by
  intro pre
  induction pre with
  | nil =>
    intro s suf fs cur i b b1 e hr hf hm
    simp only [foldBytes] at hf
    injection hf with hb
    subst hb
    have hpa : process_audio m fs s.task s.model_name cur (intermediatePath d i s.model_name)
        = .error (.modelFailure e) := by
      simp [process_audio, hr, hm]
    have key : runPipeline m d fs cur i ([] ++ s :: suf)
        = ⟨some (.modelFailure e), fs, cur, [stepLog i s], []⟩ := by
      simp only [List.nil_append, runPipeline]
      rw [hpa]
    rw [key]
    exact ⟨rfl, rfl, by simp [pipeLog, pipePaths], fun p _ => rfl⟩
  | cons s0 pre ih =>
    intro s suf fs cur i b b1 e hr hf hm
    simp only [foldBytes] at hf
    cases hm0 : m s0.task s0.model_name b with
    | error e0 => rw [hm0] at hf; cases hf
    | ok b0 =>
      rw [hm0] at hf
      have hpa : process_audio m fs s0.task s0.model_name cur (intermediatePath d i s0.model_name)
          = .ok (fsWrite fs (intermediatePath d i s0.model_name) b0) := by
        simp [process_audio, hr, hm0]
      have key : runPipeline m d fs cur i ((s0 :: pre) ++ s :: suf) =
          { err := (runPipeline m d (fsWrite fs (intermediatePath d i s0.model_name) b0)
              (intermediatePath d i s0.model_name) (i+1) (pre ++ s :: suf)).err,
            fs := (runPipeline m d (fsWrite fs (intermediatePath d i s0.model_name) b0)
              (intermediatePath d i s0.model_name) (i+1) (pre ++ s :: suf)).fs,
            cur := (runPipeline m d (fsWrite fs (intermediatePath d i s0.model_name) b0)
              (intermediatePath d i s0.model_name) (i+1) (pre ++ s :: suf)).cur,
            plog := stepLog i s0 :: (runPipeline m d (fsWrite fs (intermediatePath d i s0.model_name) b0)
              (intermediatePath d i s0.model_name) (i+1) (pre ++ s :: suf)).plog,
            written := intermediatePath d i s0.model_name ::
              (runPipeline m d (fsWrite fs (intermediatePath d i s0.model_name) b0)
              (intermediatePath d i s0.model_name) (i+1) (pre ++ s :: suf)).written } := by
        simp only [List.cons_append, runPipeline]
        rw [hpa]
        rfl
      obtain ⟨e1, e2, e3, e4⟩ := ih s suf (fsWrite fs (intermediatePath d i s0.model_name) b0)
        (intermediatePath d i s0.model_name) (i+1) b0 b1 e (fsRead_write_self _ _ _) hf hm
      rw [key]
      refine ⟨e1, ?_, ?_, ?_⟩
      · simpa [pipePaths] using e2
      · simp only [pipeLog, List.cons_append, List.length_cons]
        rw [e3]
        have harith : i + 1 + pre.length = i + (pre.length + 1) := by omega
        rw [harith]
      · intro p hp
        simp only [pipePaths, List.mem_cons, not_or] at hp
        rw [e4 p hp.2, fsRead_write_other _ _ _ _ hp.1]

/-! ### `enhance_audio`-level lemmas -/

theorem ensure_wav_id (t : Transcode) (fs : FS) (p d : String)
    (hw : extLower p = (".wav")) : ensure_wav_format t fs p d = (fs, p) := by
  simp [ensure_wav_format, hw]

theorem enhance_py_eq_main (m : EnhModel) (t : Transcode) (fs : FS) (inp outp : String)
    (pl : List StepSpec) (d : String) (hw : extLower inp = (".wav")) :
    enhance_audio_py m t fs inp outp pl d = enhance_audio_main m fs inp outp pl d := by
  unfold enhance_audio_py enhance_audio_main
  rw [ensure_wav_id t fs inp d hw]

theorem enhance_main_ok (m : EnhModel) (fs : FS) (inp outp : String)
    (steps : List StepSpec) (d : String) (b out : Bytes)
    (hr : fsRead fs inp = some b) (hf : foldBytes m b steps = .ok out)
    (hne : lastFile d 0 inp steps ≠ outp) :
    (enhance_audio_main m fs inp outp steps d).err = none ∧
    (enhance_audio_main m fs inp outp steps d).written = pipePaths d 0 steps ∧
    (enhance_audio_main m fs inp outp steps d).plog = pipeLog 0 steps ∧
    fsRead (enhance_audio_main m fs inp outp steps d).fs outp = some out ∧
    fsRead (enhance_audio_main m fs inp outp steps d).fs (lastFile d 0 inp steps)
      = some out ∧
    ∀ p, ¬ p ∈ pipePaths d 0 steps → p ≠ outp →
      fsRead (enhance_audio_main m fs inp outp steps d).fs p = fsRead fs p := by
  obtain ⟨e1, e2, e3, e4, e5, e6⟩ := runPipeline_ok m d steps fs inp 0 b out hr hf
  have hcopy : shutilCopy (runPipeline m d fs inp 0 steps).fs
      (runPipeline m d fs inp 0 steps).cur outp
      = .ok (fsWrite (runPipeline m d fs inp 0 steps).fs outp out) := by
    rw [e2]
    simp [shutilCopy, hne, e5]
  have key : enhance_audio_main m fs inp outp steps d
      = ⟨none, fsWrite (runPipeline m d fs inp 0 steps).fs outp out,
          (runPipeline m d fs inp 0 steps).plog,
          (runPipeline m d fs inp 0 steps).written⟩ := by
    simp only [enhance_audio_main]
    rw [e1, hcopy]
  rw [key]
  refine ⟨rfl, e3, e4, fsRead_write_self _ _ _, ?_, ?_⟩
  · rw [fsRead_write_other _ _ _ _ hne]
    exact e5
  · intro p hp hpo
    rw [fsRead_write_other _ _ _ _ hpo]
    exact e6 p hp

theorem enhance_main_fail (m : EnhModel) (fs : FS) (inp outp : String)
    (pre : List StepSpec) (s : StepSpec) (suf : List StepSpec) (d : String)
    (b b1 : Bytes) (e : String)
    (hr : fsRead fs inp = some b) (hp : foldBytes m b pre = .ok b1)
    (hm : m s.task s.model_name b1 = .error e) :
    (enhance_audio_main m fs inp outp (pre ++ s :: suf) d).err
      = some (.modelFailure e) ∧
    (enhance_audio_main m fs inp outp (pre ++ s :: suf) d).written
      = pipePaths d 0 pre ∧
    (enhance_audio_main m fs inp outp (pre ++ s :: suf) d).plog
      = pipeLog 0 pre ++ [stepLog pre.length s] ∧
    ∀ p, ¬ p ∈ pipePaths d 0 pre →
      fsRead (enhance_audio_main m fs inp outp (pre ++ s :: suf) d).fs p
        = fsRead fs p := by
  obtain ⟨e1, e2, e3, e4⟩ := runPipeline_fail m d pre s suf fs inp 0 b b1 e hr hp hm
  have key : enhance_audio_main m fs inp outp (pre ++ s :: suf) d
      = ⟨some (.modelFailure e), (runPipeline m d fs inp 0 (pre ++ s :: suf)).fs,
          (runPipeline m d fs inp 0 (pre ++ s :: suf)).plog,
          (runPipeline m d fs inp 0 (pre ++ s :: suf)).written⟩ := by
    simp only [enhance_audio_main]
    rw [e1]
  rw [key]
  refine ⟨rfl, e2, ?_, e4⟩
  simpa using e3

theorem lastFile_mem_pipePaths (d : String) :
    ∀ (steps : List StepSpec) (i : Nat) (cur : String), steps ≠ [] →
    lastFile d i cur steps ∈ pipePaths d i steps := by
  intro steps
  induction steps with
  | nil => intro i cur h; exact absurd rfl h
  | cons s rest ih =>
    intro i cur _
    by_cases hrest : rest = []
    · subst hrest
      simp [lastFile, pipePaths]
    · simp only [lastFile, pipePaths, List.mem_cons]
      exact Or.inr (ih (i+1) (intermediatePath d i s.model_name) hrest)

/-! ### Handler-level helper lemmas -/

theorem osJoin_ends_wav (d w : String) :
    ∃ q, osJoin d (w ++ (".wav")) = q ++ (".wav") := by
  unfold osJoin
  by_cases h1 : startsSlash (w ++ (".wav"))
  · exact ⟨w, by rw [if_pos h1]⟩
  · rw [if_neg h1]
    by_cases h2 : d = ("")
    · exact ⟨w, by rw [if_pos h2]⟩
    · rw [if_neg h2]
      by_cases h3 : endsSlash d
      · exact ⟨d ++ w, by rw [if_pos h3]; simp [String.append_assoc]⟩
      · exact ⟨(d ++ ("/")) ++ w, by rw [if_neg h3]; simp [String.append_assoc]⟩

theorem handlerPyTry_not_crashed (m : EnhModel) (t : Transcode) (enc : B64Encode)
    (ev : ReqEvent) (fs1 : FS) (ip op : String) (src : SourceTag)
    (acts : List FetchAction) (e : String) :
    (handlerPyTry m t enc ev fs1 ip op src acts).outcome ≠ .crashed e := by
  simp only [handlerPyTry]
  split
  · simp
  · split <;> simp

theorem handlerPyTry_fields (m : EnhModel) (t : Transcode) (enc : B64Encode)
    (ev : ReqEvent) (fs1 : FS) (ip op : String) (src : SourceTag)
    (acts : List FetchAction) :
    (handlerPyTry m t enc ev fs1 ip op src acts).source = some src ∧
    (handlerPyTry m t enc ev fs1 ip op src acts).actions = acts := by
  simp only [handlerPyTry]
  split
  · exact ⟨rfl, rfl⟩
  · split <;> exact ⟨rfl, rfl⟩

theorem handlerMainFinish_not_crashed (enc : B64Encode) (pl : List StepSpec)
    (rt : String) (fsE : FS) (op td : String) (acts : List FetchAction)
    (src : Option SourceTag) (e : String) :
    (handlerMainFinish enc pl rt fsE op td acts src).outcome ≠ .crashed e := by
  simp only [handlerMainFinish]
  split
  · split <;> simp
  · split <;> simp

theorem handlerMainFinish_fields (enc : B64Encode) (pl : List StepSpec)
    (rt : String) (fsE : FS) (op td : String) (acts : List FetchAction)
    (src : Option SourceTag) :
    (handlerMainFinish enc pl rt fsE op td acts src).source = src ∧
    (handlerMainFinish enc pl rt fsE op td acts src).actions = acts := by
  simp only [handlerMainFinish]
  split
  · split <;> exact ⟨rfl, rfl⟩
  · split <;> exact ⟨rfl, rfl⟩

theorem handlerMainRun_not_crashed (m : EnhModel) (enc : B64Encode)
    (pl : List StepSpec) (rt : String) (fs1 : FS) (ipath op td : String)
    (src : SourceTag) (acts : List FetchAction) (e : String) :
    (handlerMainRun m enc pl rt fs1 ipath op td src acts).outcome ≠ .crashed e := by
  simp only [handlerMainRun]
  split
  · simp
  · exact handlerMainFinish_not_crashed _ _ _ _ _ _ _ _ e

theorem handlerMainRun_fields (m : EnhModel) (enc : B64Encode)
    (pl : List StepSpec) (rt : String) (fs1 : FS) (ipath op td : String)
    (src : SourceTag) (acts : List FetchAction) :
    (handlerMainRun m enc pl rt fs1 ipath op td src acts).source = some src ∧
    (handlerMainRun m enc pl rt fs1 ipath op td src acts).actions = acts := by
  simp only [handlerMainRun]
  split
  · exact ⟨rfl, rfl⟩
  · exact handlerMainFinish_fields _ _ _ _ _ _ _ _

/-! ### Claim theorems -/

/-- Claim C5 (counterexample): `ensure_wav_format` does not always return a
WAV path.  For the input `a.mp3` with a failing ffmpeg transcode, it returns
the original `.mp3` path unchanged, with no error signalled: the non-WAV file
is passed onward. -/
theorem ensure_wav_fallback_returns_non_wav :
    (ensure_wav_format tFail fsMp3 ("inputs/a.mp3") ("temp")).2 = ("inputs/a.mp3") ∧
    extLower (ensure_wav_format tFail fsMp3 ("inputs/a.mp3") ("temp")).2 ≠ (".wav") ∧
    fsRead (ensure_wav_format tFail fsMp3 ("inputs/a.mp3") ("temp")).1 ("inputs/a.mp3")
      = some [1, 2] := by
  refine ⟨by decide, by decide, by decide⟩

/-- Claim C5 (amended): `ensure_wav_format` returns the input path unchanged
when its lowercased extension is already `.wav`; on a successful transcode it
returns a scratch path ending in `.wav` holding the transcoded bytes; but when
the transcode fails (or the input file is missing) it silently falls back to
returning the original, possibly non-WAV, path instead of reporting a
bad-input condition. -/
theorem ensure_wav_format_behavior :
    (∀ (t : Transcode) (fs : FS) (p d : String), extLower p = (".wav") →
      ensure_wav_format t fs p d = (fs, p)) ∧
    (∀ (t : Transcode) (fs : FS) (p d : String) (b wb : Bytes),
      extLower p ≠ (".wav") → fsRead fs p = some b → t b = some wb →
      (∃ q, (ensure_wav_format t fs p d).2 = q ++ (".wav")) ∧
      fsRead (ensure_wav_format t fs p d).1 (ensure_wav_format t fs p d).2 = some wb) ∧
    (∀ (t : Transcode) (fs : FS) (p d : String) (b : Bytes),
      extLower p ≠ (".wav") → fsRead fs p = some b → t b = none →
      ensure_wav_format t fs p d = (fs, p)) ∧
    (∀ (t : Transcode) (fs : FS) (p d : String),
      extLower p ≠ (".wav") → fsRead fs p = none →
      ensure_wav_format t fs p d = (fs, p)) := by
  refine ⟨fun t fs p d hw => ensure_wav_id t fs p d hw, ?_, ?_, ?_⟩
  · intro t fs p d b wb hw hr ht
    have key : ensure_wav_format t fs p d
        = (fsWrite fs (osJoin d (wavName p)) wb, osJoin d (wavName p)) := by
      simp [ensure_wav_format, hw, hr, ht]
    rw [key]
    constructor
    · have h2 : wavName p = (⟨stemChars (basenameChars p.data)⟩ : String) ++ (".wav") := rfl
      rw [h2]
      exact osJoin_ends_wav d _
    · exact fsRead_write_self _ _ _
  · intro t fs p d b hw hr ht
    simp [ensure_wav_format, hw, hr, ht]
  · intro t fs p d hw hr
    simp [ensure_wav_format, hw, hr]

/-- Claim C5 (witness): the already-WAV case of `ensure_wav_format_behavior`
at a concrete input. -/
theorem ensure_wav_format_behavior_witness :
    ensure_wav_format t9 fsIn ("in.wav") ("temp") = (fsIn, ("in.wav")) :=
  ensure_wav_format_behavior.1 t9 fsIn ("in.wav") ("temp") (by decide)

/-- Claim C8: with an empty pipeline and coinciding input and output paths,
both `enhance_audio` variants raise `shutil.SameFileError` from
`shutil.copy(current_file, output_path)` instead of succeeding. -/
theorem empty_pipeline_same_path_raises :
    (enhance_audio_main mGood fsIn ("in.wav") ("in.wav") [] ("temp")).err
      = some (.sameFile ("in.wav") ("in.wav")) ∧
    (enhance_audio_py mGood t9 fsIn ("in.wav") ("in.wav") [] ("temp")).err
      = some (.sameFile ("in.wav") ("in.wav")) := by
  refine ⟨by decide, by decide⟩

/-- Claim C2 (counterexample): `handler.py`'s `enhance_audio` with an empty
pipeline does not always return the input bytes: a non-WAV input is first
transcoded by `ensure_wav_format`, so the output holds the transcoded bytes
`[9]`, not the input bytes `[1, 2]`. -/
theorem empty_pipeline_transcode_changes_bytes :
    fsRead fsMp3 ("inputs/a.mp3") = some [1, 2] ∧
    (enhance_audio_py mGood t9 fsMp3 ("inputs/a.mp3") ("outputs/o.wav") [] ("temp")).err
      = none ∧
    fsRead (enhance_audio_py mGood t9 fsMp3 ("inputs/a.mp3") ("outputs/o.wav") [] ("temp")).fs
      ("outputs/o.wav") = some [9] ∧
    some [9] ≠ some ([1, 2] : Bytes) := by
  refine ⟨by decide, by decide, by decide, by decide⟩

/-- Claim C2 (amended): with an empty pipeline and distinct input and output
paths, `main.py`'s `enhance_audio` always produces an output byte-identical to
the input; `handler.py`'s variant does so whenever the input path's lowercased
extension is already `.wav` (otherwise the output holds transcoded bytes). -/
theorem empty_pipeline_copies_input :
    (∀ (m : EnhModel) (fs : FS) (inp outp d : String) (b : Bytes),
      fsRead fs inp = some b → inp ≠ outp →
      (enhance_audio_main m fs inp outp [] d).err = none ∧
      fsRead (enhance_audio_main m fs inp outp [] d).fs outp = some b ∧
      (enhance_audio_main m fs inp outp [] d).written = []) ∧
    (∀ (m : EnhModel) (t : Transcode) (fs : FS) (inp outp d : String) (b : Bytes),
      fsRead fs inp = some b → inp ≠ outp → extLower inp = (".wav") →
      (enhance_audio_py m t fs inp outp [] d).err = none ∧
      fsRead (enhance_audio_py m t fs inp outp [] d).fs outp = some b ∧
      (enhance_audio_py m t fs inp outp [] d).written = []) := by
  have hmain : ∀ (m : EnhModel) (fs : FS) (inp outp d : String) (b : Bytes),
      fsRead fs inp = some b → inp ≠ outp →
      (enhance_audio_main m fs inp outp [] d).err = none ∧
      fsRead (enhance_audio_main m fs inp outp [] d).fs outp = some b ∧
      (enhance_audio_main m fs inp outp [] d).written = [] := by
    intro m fs inp outp d b hr hne
    obtain ⟨e1, e2, _, e4, _, _⟩ := enhance_main_ok m fs inp outp [] d b b hr rfl hne
    exact ⟨e1, e4, e2⟩
  refine ⟨hmain, fun m t fs inp outp d b hr hne hw => ?_⟩
  rw [enhance_py_eq_main m t fs inp outp [] d hw]
  exact hmain m fs inp outp d b hr hne

/-- Claim C2 (witness): the amended empty-pipeline property at a concrete
input. -/
theorem empty_pipeline_copies_input_witness :
    (enhance_audio_main mGood fsIn ("in.wav") ("out.wav") [] ("temp")).err = none ∧
    fsRead (enhance_audio_main mGood fsIn ("in.wav") ("out.wav") [] ("temp")).fs
      ("out.wav") = some [1, 2] ∧
    (enhance_audio_main mGood fsIn ("in.wav") ("out.wav") [] ("temp")).written = [] :=
  empty_pipeline_copies_input.1 mGood fsIn ("in.wav") ("out.wav") ("temp") [1, 2]
    (by decide) (by decide)

/-- Claim C9 (counterexample): at a concrete one-step run, both variants keep
the last intermediate file on disk and also place the final bytes at the
output path — neither variant moves (deletes) the last intermediate, so the
two variants do not differ in this respect. -/
theorem final_relocation_copy_concrete :
    (enhance_audio_py mGood t9 fsIn ("in.wav") ("out.wav")
        [⟨("speech_enhancement"), ("M")⟩] ("temp")).err = none ∧
    (enhance_audio_main mGood fsIn ("in.wav") ("out.wav")
        [⟨("speech_enhancement"), ("M")⟩] ("temp")).err = none ∧
    fsRead (enhance_audio_py mGood t9 fsIn ("in.wav") ("out.wav")
        [⟨("speech_enhancement"), ("M")⟩] ("temp")).fs
      ("temp/intermediate_0_M.wav") = some [1, 2, 1] ∧
    fsRead (enhance_audio_main mGood fsIn ("in.wav") ("out.wav")
        [⟨("speech_enhancement"), ("M")⟩] ("temp")).fs
      ("temp/intermediate_0_M.wav") = some [1, 2, 1] ∧
    fsRead (enhance_audio_py mGood t9 fsIn ("in.wav") ("out.wav")
        [⟨("speech_enhancement"), ("M")⟩] ("temp")).fs ("out.wav") = some [1, 2, 1] ∧
    fsRead (enhance_audio_main mGood fsIn ("in.wav") ("out.wav")
        [⟨("speech_enhancement"), ("M")⟩] ("temp")).fs ("out.wav") = some [1, 2, 1] := by
  refine ⟨by decide, by decide, by decide, by decide, by decide, by decide⟩

/-- Claim C9 (amended): both variants relocate the final result with
`shutil.copy` (the comment says Move, the code copies): after any successful
non-empty run, in either variant, the last intermediate file still exists with
the final bytes, and the output path holds the same bytes.  The variants do
not differ in whether the last intermediate survives. -/
theorem final_relocation_is_copy_in_both :
    (∀ (m : EnhModel) (fs : FS) (inp outp d : String) (steps : List StepSpec)
       (b out : Bytes),
      fsRead fs inp = some b → foldBytes m b steps = .ok out →
      lastFile d 0 inp steps ≠ outp → steps ≠ [] →
      (enhance_audio_main m fs inp outp steps d).err = none ∧
      lastFile d 0 inp steps ∈ (enhance_audio_main m fs inp outp steps d).written ∧
      fsRead (enhance_audio_main m fs inp outp steps d).fs (lastFile d 0 inp steps)
        = some out ∧
      fsRead (enhance_audio_main m fs inp outp steps d).fs outp = some out) ∧
    (∀ (m : EnhModel) (t : Transcode) (fs : FS) (inp outp d : String)
       (steps : List StepSpec) (b out : Bytes),
      fsRead fs inp = some b → foldBytes m b steps = .ok out →
      lastFile d 0 inp steps ≠ outp → steps ≠ [] → extLower inp = (".wav") →
      (enhance_audio_py m t fs inp outp steps d).err = none ∧
      lastFile d 0 inp steps ∈ (enhance_audio_py m t fs inp outp steps d).written ∧
      fsRead (enhance_audio_py m t fs inp outp steps d).fs (lastFile d 0 inp steps)
        = some out ∧
      fsRead (enhance_audio_py m t fs inp outp steps d).fs outp = some out) := by
  have hmain : ∀ (m : EnhModel) (fs : FS) (inp outp d : String) (steps : List StepSpec)
      (b out : Bytes),
      fsRead fs inp = some b → foldBytes m b steps = .ok out →
      lastFile d 0 inp steps ≠ outp → steps ≠ [] →
      (enhance_audio_main m fs inp outp steps d).err = none ∧
      lastFile d 0 inp steps ∈ (enhance_audio_main m fs inp outp steps d).written ∧
      fsRead (enhance_audio_main m fs inp outp steps d).fs (lastFile d 0 inp steps)
        = some out ∧
      fsRead (enhance_audio_main m fs inp outp steps d).fs outp = some out := by
    intro m fs inp outp d steps b out hr hf hne hnil
    obtain ⟨e1, e2, _, e4, e5, _⟩ := enhance_main_ok m fs inp outp steps d b out hr hf hne
    refine ⟨e1, ?_, e5, e4⟩
    rw [e2]
    exact lastFile_mem_pipePaths d steps 0 inp hnil
  refine ⟨hmain, fun m t fs inp outp d steps b out hr hf hne hnil hw => ?_⟩
  rw [enhance_py_eq_main m t fs inp outp steps d hw]
  exact hmain m fs inp outp d steps b out hr hf hne hnil

/-- Claim C9 (witness): the amended relocation property at a concrete
one-step run of `main.py`'s variant. -/
theorem final_relocation_is_copy_in_both_witness :
    (enhance_audio_main mGood fsIn ("in.wav") ("out.wav")
        [⟨("speech_enhancement"), ("M")⟩] ("temp")).err = none ∧
    lastFile ("temp") 0 ("in.wav") [⟨("speech_enhancement"), ("M")⟩]
      ∈ (enhance_audio_main mGood fsIn ("in.wav") ("out.wav")
          [⟨("speech_enhancement"), ("M")⟩] ("temp")).written ∧
    fsRead (enhance_audio_main mGood fsIn ("in.wav") ("out.wav")
        [⟨("speech_enhancement"), ("M")⟩] ("temp")).fs
      (lastFile ("temp") 0 ("in.wav") [⟨("speech_enhancement"), ("M")⟩])
      = some [1, 2, 1] ∧
    fsRead (enhance_audio_main mGood fsIn ("in.wav") ("out.wav")
        [⟨("speech_enhancement"), ("M")⟩] ("temp")).fs ("out.wav") = some [1, 2, 1] :=
  final_relocation_is_copy_in_both.1 mGood fsIn ("in.wav") ("out.wav") ("temp")
    [⟨("speech_enhancement"), ("M")⟩] [1, 2] [1, 2, 1]
    (by decide) (by rfl) (by decide) (by decide)

/-- Claim C1 (counterexample): the error surfaced by `enhance_audio` is the
underlying model exception, unchanged; it need not identify the failing step.
Two runs that fail at different step indices (0 versus 1), with different
tasks and model names at the failing step, surface identical errors. -/
theorem enhance_error_not_step_identifying :
    (enhance_audio_main mBoom fsIn ("in.wav") ("out.wav")
        [⟨("speech_enhancement"), ("Bad1")⟩] ("temp")).err
      = (enhance_audio_main mBoom fsIn ("in.wav") ("out.wav")
          [⟨("speech_enhancement"), ("GoodModel")⟩,
           ⟨("speech_super_resolution"), ("Bad2")⟩] ("temp")).err ∧
    (enhance_audio_main mBoom fsIn ("in.wav") ("out.wav")
        [⟨("speech_enhancement"), ("Bad1")⟩] ("temp")).err
      = some (.modelFailure ("boom")) ∧
    (enhance_audio_main mBoom fsIn ("in.wav") ("out.wav")
        [⟨("speech_enhancement"), ("Bad1")⟩] ("temp")).written = [] ∧
    (enhance_audio_main mBoom fsIn ("in.wav") ("out.wav")
        [⟨("speech_enhancement"), ("GoodModel")⟩,
         ⟨("speech_super_resolution"), ("Bad2")⟩] ("temp")).written
      = [intermediatePath ("temp") 0 ("GoodModel")] := by
  refine ⟨by decide, by decide, by decide, by decide⟩

/-- Claim C1 (amended): if step `k` is the first step whose model invocation
raises, `enhance_audio` aborts immediately with the underlying model error
surfaced unchanged (no retry, no recovery); only intermediates for steps
`0..k-1` exist, none for `k..n`; and the log — not the error value — names the
failing step: its last entry is `Step k+1: task using model_name`.  The
`handler.py` variant behaves identically on WAV inputs. -/
theorem enhance_first_failure_aborts
    (m : EnhModel) (t : Transcode) (fs : FS) (inp outp d : String)
    (pre : List StepSpec) (s : StepSpec) (suf : List StepSpec)
    (b b1 : Bytes) (e : String)
    (hr : fsRead fs inp = some b) (hp : foldBytes m b pre = .ok b1)
    (hm : m s.task s.model_name b1 = .error e) (hw : extLower inp = (".wav")) :
    (enhance_audio_main m fs inp outp (pre ++ s :: suf) d).err
      = some (.modelFailure e) ∧
    (enhance_audio_main m fs inp outp (pre ++ s :: suf) d).written
      = pipePaths d 0 pre ∧
    (enhance_audio_main m fs inp outp (pre ++ s :: suf) d).plog
      = pipeLog 0 pre ++ [stepLog pre.length s] ∧
    enhance_audio_py m t fs inp outp (pre ++ s :: suf) d
      = enhance_audio_main m fs inp outp (pre ++ s :: suf) d := by
  obtain ⟨e1, e2, e3, _⟩ := enhance_main_fail m fs inp outp pre s suf d b b1 e hr hp hm
  exact ⟨e1, e2, e3, enhance_py_eq_main m t fs inp outp _ d hw⟩

/-- Claim C1 (witness): the amended abort property at a concrete three-step
pipeline whose second step names a non-existent model. -/
theorem enhance_first_failure_aborts_witness :
    (enhance_audio_main mBad fsIn ("in.wav") ("outputs/o.wav")
        [⟨("speech_enhancement"), ("MossFormer2_SE_48K")⟩,
         ⟨("speech_super_resolution"), ("NonExistentModel")⟩,
         ⟨("speech_enhancement"), ("MossFormer2_SE_48K")⟩] ("temp")).err
      = some (.modelFailure (("model not found: ") ++ ("NonExistentModel"))) :=
  (enhance_first_failure_aborts mBad t9 fsIn ("in.wav") ("outputs/o.wav") ("temp")
    [⟨("speech_enhancement"), ("MossFormer2_SE_48K")⟩]
    ⟨("speech_super_resolution"), ("NonExistentModel")⟩
    [⟨("speech_enhancement"), ("MossFormer2_SE_48K")⟩]
    [1, 2] [1, 2, 1] (("model not found: ") ++ ("NonExistentModel"))
    (by decide) (by rfl) (by rfl) (by decide)).1

/-- Claim C4: if any pipeline step fails, `enhance_audio` writes nothing to
the designated output path (provided the output path is not itself one of the
scratch intermediate paths): the file system at the output path is exactly as
before the call, in both variants (the `handler.py` variant stated for inputs
already in WAV format). -/
theorem failed_pipeline_leaves_output_untouched
    (m : EnhModel) (fs : FS) (inp outp d : String)
    (pre : List StepSpec) (s : StepSpec) (suf : List StepSpec)
    (b b1 : Bytes) (e : String)
    (hr : fsRead fs inp = some b) (hp : foldBytes m b pre = .ok b1)
    (hm : m s.task s.model_name b1 = .error e)
    (ho : ¬ outp ∈ pipePaths d 0 pre) :
    ((enhance_audio_main m fs inp outp (pre ++ s :: suf) d).err
        = some (.modelFailure e) ∧
      fsRead (enhance_audio_main m fs inp outp (pre ++ s :: suf) d).fs outp
        = fsRead fs outp) ∧
    (∀ t : Transcode, extLower inp = (".wav") →
      (enhance_audio_py m t fs inp outp (pre ++ s :: suf) d).err
        = some (.modelFailure e) ∧
      fsRead (enhance_audio_py m t fs inp outp (pre ++ s :: suf) d).fs outp
        = fsRead fs outp) := by
  obtain ⟨e1, _, _, e4⟩ := enhance_main_fail m fs inp outp pre s suf d b b1 e hr hp hm
  refine ⟨⟨e1, e4 outp ho⟩, fun t hw => ?_⟩
  rw [enhance_py_eq_main m t fs inp outp _ d hw]
  exact ⟨e1, e4 outp ho⟩

/-- Claim C4 (witness): the all-or-nothing property at a concrete three-step
pipeline whose second step names a non-existent model; no file appears at the
designated output path. -/
theorem failed_pipeline_leaves_output_untouched_witness :
    fsRead (enhance_audio_main mBad fsIn ("in.wav") ("outputs/o.wav")
        [⟨("speech_enhancement"), ("MossFormer2_SE_48K")⟩,
         ⟨("speech_super_resolution"), ("NonExistentModel")⟩,
         ⟨("speech_enhancement"), ("MossFormer2_SE_48K")⟩] ("temp")).fs
      ("outputs/o.wav") = fsRead fsIn ("outputs/o.wav") :=
  ((failed_pipeline_leaves_output_untouched mBad fsIn ("in.wav") ("outputs/o.wav")
    ("temp") [⟨("speech_enhancement"), ("MossFormer2_SE_48K")⟩]
    ⟨("speech_super_resolution"), ("NonExistentModel")⟩
    [⟨("speech_enhancement"), ("MossFormer2_SE_48K")⟩]
    [1, 2] [1, 2, 1] (("model not found: ") ++ ("NonExistentModel"))
    (by decide) (by rfl) (by rfl) (by decide)).1).2

/-- Claim C6 (counterexample): intermediate names are keyed only by step index
and model name, not by request or run: re-running the identical request in the
same scratch directory writes to exactly the path left over by the previous
run — the names collide. -/
theorem rerun_intermediate_collision :
    (enhance_audio_main mGood fsIn ("in.wav") ("out.wav")
        [⟨("speech_enhancement"), ("M")⟩] ("temp")).written
      = [("temp/intermediate_0_M.wav")] ∧
    fsRead (enhance_audio_main mGood fsIn ("in.wav") ("out.wav")
        [⟨("speech_enhancement"), ("M")⟩] ("temp")).fs
      ("temp/intermediate_0_M.wav") = some [1, 2, 1] ∧
    (enhance_audio_main mGood
        (enhance_audio_main mGood fsIn ("in.wav") ("out.wav")
          [⟨("speech_enhancement"), ("M")⟩] ("temp")).fs
        ("in.wav") ("out.wav") [⟨("speech_enhancement"), ("M")⟩] ("temp")).written
      = [("temp/intermediate_0_M.wav")] := by
  refine ⟨by decide, by decide, by decide⟩

/-- Claim C6 (amended): every successful run writes exactly one intermediate
per step, in step order, at the intermediate path for (i, model) under the scratch
directory; these paths are distinct for distinct step indices within one run;
but they are a function of (step index, model name) alone — not of the
request — so identical runs sharing a scratch directory write identical paths
(isolation must come from a per-run scratch directory, as with `main.py`'s
`mkdtemp`, not from the names). -/
theorem intermediate_artifacts_per_step :
    (∀ (m : EnhModel) (fs : FS) (inp outp d : String) (steps : List StepSpec)
       (b out : Bytes),
      fsRead fs inp = some b → foldBytes m b steps = .ok out →
      lastFile d 0 inp steps ≠ outp →
      (enhance_audio_main m fs inp outp steps d).written = pipePaths d 0 steps) ∧
    (∀ (d : String) (i j : Nat) (a c : String), i ≠ j →
      intermediatePath d i a ≠ intermediatePath d j c) :=
  ⟨fun m fs inp outp d steps b out hr hf hne =>
      (enhance_main_ok m fs inp outp steps d b out hr hf hne).2.1,
   fun _ _ _ _ _ hij => intermediatePath_inj hij⟩

/-- Claim C6 (witness): the per-step artifact property at a concrete two-step
run, plus path distinctness for indices 0 and 1 sharing a model name. -/
theorem intermediate_artifacts_per_step_witness :
    (enhance_audio_main mGood fsIn ("in.wav") ("out.wav")
        [⟨("speech_enhancement"), ("M")⟩, ⟨("speech_super_resolution"), ("N")⟩]
        ("temp")).written
      = pipePaths ("temp") 0
          [⟨("speech_enhancement"), ("M")⟩, ⟨("speech_super_resolution"), ("N")⟩] ∧
    intermediatePath ("temp") 0 ("M") ≠ intermediatePath ("temp") 1 ("M") :=
  ⟨intermediate_artifacts_per_step.1 mGood fsIn ("in.wav") ("out.wav") ("temp")
      [⟨("speech_enhancement"), ("M")⟩, ⟨("speech_super_resolution"), ("N")⟩]
      [1, 2] [1, 2, 1, 1] (by decide) (by rfl) (by decide),
   intermediate_artifacts_per_step.2 ("temp") 0 1 ("M") ("M") (by decide)⟩

/-- Claim C7: assuming the model collaborator is a function (deterministic),
the final artifact bytes are a function of the input bytes and the ordered
step list alone: two successful runs of `main.py`'s `enhance_audio` from any
two file systems, input paths and scratch directories holding the same input
bytes produce the same final bytes `out` (with `foldBytes` the explicit
function); and on WAV inputs the `handler.py` variant coincides with the
`main.py` variant entirely. -/
theorem enhance_deterministic :
    (∀ (m : EnhModel) (fs1 fs2 : FS) (p1 p2 o1 o2 d1 d2 : String)
       (steps : List StepSpec) (b out : Bytes),
      fsRead fs1 p1 = some b → fsRead fs2 p2 = some b →
      foldBytes m b steps = .ok out →
      lastFile d1 0 p1 steps ≠ o1 → lastFile d2 0 p2 steps ≠ o2 →
      (enhance_audio_main m fs1 p1 o1 steps d1).err = none ∧
      (enhance_audio_main m fs2 p2 o2 steps d2).err = none ∧
      fsRead (enhance_audio_main m fs1 p1 o1 steps d1).fs o1 = some out ∧
      fsRead (enhance_audio_main m fs2 p2 o2 steps d2).fs o2 = some out) ∧
    (∀ (m : EnhModel) (t : Transcode) (fs : FS) (inp outp : String)
       (steps : List StepSpec) (d : String), extLower inp = (".wav") →
      enhance_audio_py m t fs inp outp steps d
        = enhance_audio_main m fs inp outp steps d) := by
  refine ⟨fun m fs1 fs2 p1 p2 o1 o2 d1 d2 steps b out h1 h2 hf hn1 hn2 => ?_,
    fun m t fs inp outp steps d hw => enhance_py_eq_main m t fs inp outp steps d hw⟩
  obtain ⟨a1, _, _, a4, _, _⟩ := enhance_main_ok m fs1 p1 o1 steps d1 b out h1 hf hn1
  obtain ⟨c1, _, _, c4, _, _⟩ := enhance_main_ok m fs2 p2 o2 steps d2 b out h2 hf hn2
  exact ⟨a1, c1, a4, c4⟩

/-- Claim C7 (witness): two concrete runs from different file systems and
scratch directories with the same input bytes produce the same output
bytes. -/
theorem enhance_deterministic_witness :
    (enhance_audio_main mGood fsIn ("in.wav") ("out.wav")
        [⟨("speech_enhancement"), ("M")⟩] ("temp")).err = none ∧
    (enhance_audio_main mGood (fsWrite fsEmpty ("other.wav") [1, 2]) ("other.wav")
        ("o2.wav") [⟨("speech_enhancement"), ("M")⟩] ("temp2")).err = none ∧
    fsRead (enhance_audio_main mGood fsIn ("in.wav") ("out.wav")
        [⟨("speech_enhancement"), ("M")⟩] ("temp")).fs ("out.wav") = some [1, 2, 1] ∧
    fsRead (enhance_audio_main mGood (fsWrite fsEmpty ("other.wav") [1, 2])
        ("other.wav") ("o2.wav") [⟨("speech_enhancement"), ("M")⟩] ("temp2")).fs
      ("o2.wav") = some [1, 2, 1] :=
  enhance_deterministic.1 mGood fsIn (fsWrite fsEmpty ("other.wav") [1, 2])
    ("in.wav") ("other.wav") ("out.wav") ("o2.wav") ("temp") ("temp2")
    [⟨("speech_enhancement"), ("M")⟩] [1, 2] [1, 2, 1]
    (by decide) (by decide) (by rfl) (by decide) (by decide)

/-- Claim C3 (counterexample): `handler.py` resolves the input source before
its `try` block, so a failing URL download raises out of the handler instead
of being converted into an error response. -/
theorem handler_py_crashes_on_download_failure :
    (handler_py mGood t9 dlFail b64Ok encX fsIn evUrl ("123")).outcome
      = .crashed ("connection refused") := by
  decide

/-- Claim C3 (amended): `main.py`'s handler wraps its whole body in one
`try`/`except`, so no exception of any of the three kinds ever escapes it;
`handler.py` converts pipeline-execution and packaging errors into error
responses, but an exception can escape it, and it does so exactly when input
resolution fails: either the URL download or the base64 decode raised (both
sit before its `try` block). -/
theorem handler_error_containment :
    (∀ (m : EnhModel) (t : Transcode) (dl : Download) (b64 : B64Decode)
       (enc : B64Encode) (fs : FS) (ev : ReqEvent) (td : String) (e : String),
      (handler_main m t dl b64 enc fs ev td).outcome ≠ .crashed e) ∧
    (∀ (m : EnhModel) (t : Transcode) (dl : Download) (b64 : B64Decode)
       (enc : B64Encode) (fs : FS) (ev : ReqEvent) (ts : String) (e : String),
      (handler_py m t dl b64 enc fs ev ts).outcome = .crashed e →
      validUpload ev.audio_file = none ∧
      ((∃ u, ev.input_url = some u ∧ dl u = .error e) ∨
       (ev.input_url = none ∧ ∃ sd, ev.input_data = some sd ∧ b64 sd = .error e))) := by
  constructor
  · intro m t dl b64 enc fs ev td e
    simp only [handler_main]
    split
    · apply handlerMainRun_not_crashed
    · split
      · split
        · simp
        · apply handlerMainRun_not_crashed
      · split
        · split
          · simp
          · apply handlerMainRun_not_crashed
        · simp
  · intro m t dl b64 enc fs ev ts e h
    cases hvu : validUpload ev.audio_file with
    | some p =>
      simp only [handler_py, hvu] at h
      exact absurd h (handlerPyTry_not_crashed _ _ _ _ _ _ _ _ _ e)
    | none =>
      cases huq : ev.input_url with
      | some u =>
        cases hdl : dl u with
        | error e0 =>
          simp only [handler_py, hvu, huq, hdl] at h
          injection h with he
          exact ⟨rfl, Or.inl ⟨u, rfl, he ▸ hdl⟩⟩
        | ok bs =>
          simp only [handler_py, hvu, huq, hdl] at h
          exact absurd h (handlerPyTry_not_crashed _ _ _ _ _ _ _ _ _ e)
      | none =>
        cases hdta : ev.input_data with
        | some sd =>
          cases hb : b64 sd with
          | error e0 =>
            simp only [handler_py, hvu, huq, hdta, hb] at h
            injection h with he
            exact ⟨rfl, Or.inr ⟨rfl, sd, rfl, he ▸ hb⟩⟩
          | ok bs =>
            simp only [handler_py, hvu, huq, hdta, hb] at h
            exact absurd h (handlerPyTry_not_crashed _ _ _ _ _ _ _ _ _ e)
        | none =>
          simp only [handler_py, hvu, huq, hdta] at h
          exact HandlerOutcome.noConfusion h

/-- Claim C3 (witness): applying the crash characterization at the concrete
crashing run of `handler.py`. -/
theorem handler_error_containment_witness :
    validUpload evUrl.audio_file = none ∧
    ((∃ u, evUrl.input_url = some u ∧ dlFail u = .error ("connection refused")) ∨
     (evUrl.input_url = none ∧
      ∃ sd, evUrl.input_data = some sd ∧ b64Ok sd = .error ("connection refused"))) :=
  handler_error_containment.2 mGood t9 dlFail b64Ok encX fsIn evUrl ("123")
    ("connection refused") (by decide)

/-- Claim C10: in both handlers exactly one audio source is used, with fixed
precedence: a valid uploaded `audio_file.local_path` beats `input_url`, which
beats the inline base64 field (`input_data` in `handler.py`, `audio` in
`main.py`); lower-precedence sources are never downloaded or decoded (the
recorded collaborator actions show at most the one chosen fetch).  `main.py`
skips present-but-empty (falsy) `input_url`/`audio` values. -/
theorem source_precedence :
    (∀ (m : EnhModel) (t : Transcode) (dl : Download) (b64 : B64Decode)
       (enc : B64Encode) (fs : FS) (ev : ReqEvent) (ts : String) (p : String),
      validUpload ev.audio_file = some p →
      (handler_py m t dl b64 enc fs ev ts).source = some .upload ∧
      (handler_py m t dl b64 enc fs ev ts).actions = []) ∧
    (∀ (m : EnhModel) (t : Transcode) (dl : Download) (b64 : B64Decode)
       (enc : B64Encode) (fs : FS) (ev : ReqEvent) (ts : String) (u : String),
      validUpload ev.audio_file = none → ev.input_url = some u →
      (handler_py m t dl b64 enc fs ev ts).source = some .url ∧
      (handler_py m t dl b64 enc fs ev ts).actions = [.download u]) ∧
    (∀ (m : EnhModel) (t : Transcode) (dl : Download) (b64 : B64Decode)
       (enc : B64Encode) (fs : FS) (ev : ReqEvent) (ts : String) (sd : String),
      validUpload ev.audio_file = none → ev.input_url = none →
      ev.input_data = some sd →
      (handler_py m t dl b64 enc fs ev ts).source = some .inlineData ∧
      (handler_py m t dl b64 enc fs ev ts).actions = [.decodeB64 sd]) ∧
    (∀ (m : EnhModel) (t : Transcode) (dl : Download) (b64 : B64Decode)
       (enc : B64Encode) (fs : FS) (ev : ReqEvent) (td : String) (p : String),
      validUpload ev.audio_file = some p →
      (handler_main m t dl b64 enc fs ev td).source = some .upload ∧
      (handler_main m t dl b64 enc fs ev td).actions = []) ∧
    (∀ (m : EnhModel) (t : Transcode) (dl : Download) (b64 : B64Decode)
       (enc : B64Encode) (fs : FS) (ev : ReqEvent) (td : String) (u : String),
      validUpload ev.audio_file = none → ev.input_url = some u → u ≠ ("") →
      (handler_main m t dl b64 enc fs ev td).source = some .url ∧
      (handler_main m t dl b64 enc fs ev td).actions = [.download u]) ∧
    (∀ (m : EnhModel) (t : Transcode) (dl : Download) (b64 : B64Decode)
       (enc : B64Encode) (fs : FS) (ev : ReqEvent) (td : String) (a : String),
      validUpload ev.audio_file = none → presentNonEmpty ev.input_url = none →
      ev.audio = some a → a ≠ ("") →
      (handler_main m t dl b64 enc fs ev td).source = some .inlineData ∧
      (handler_main m t dl b64 enc fs ev td).actions = [.decodeB64 a]) := by
  refine ⟨?_, ?_, ?_, ?_, ?_, ?_⟩
  · intro m t dl b64 enc fs ev ts p hvu
    simp only [handler_py, hvu]
    exact handlerPyTry_fields _ _ _ _ _ _ _ _ _
  · intro m t dl b64 enc fs ev ts u hvu hurl
    cases hdl : dl u with
    | error e0 =>
      simp only [handler_py, hvu, hurl, hdl]
      exact ⟨trivial, trivial⟩
    | ok bs =>
      simp only [handler_py, hvu, hurl, hdl]
      exact handlerPyTry_fields _ _ _ _ _ _ _ _ _
  · intro m t dl b64 enc fs ev ts sd hvu hurl hdta
    cases hb : b64 sd with
    | error e0 =>
      simp only [handler_py, hvu, hurl, hdta, hb]
      exact ⟨trivial, trivial⟩
    | ok bs =>
      simp only [handler_py, hvu, hurl, hdta, hb]
      exact handlerPyTry_fields _ _ _ _ _ _ _ _ _
  · intro m t dl b64 enc fs ev td p hvu
    simp only [handler_main, hvu]
    exact handlerMainRun_fields _ _ _ _ _ _ _ _ _ _
  · intro m t dl b64 enc fs ev td u hvu hurl hne
    have hpne : presentNonEmpty ev.input_url = some u := by
      simp [presentNonEmpty, hurl, hne]
    cases hdl : dl u with
    | error e0 =>
      simp only [handler_main, hvu, hpne, hdl]
      exact ⟨trivial, trivial⟩
    | ok bs =>
      simp only [handler_main, hvu, hpne, hdl]
      exact handlerMainRun_fields _ _ _ _ _ _ _ _ _ _
  · intro m t dl b64 enc fs ev td a hvu hpu ha hane
    have hpa : presentNonEmpty ev.audio = some a := by
      simp [presentNonEmpty, ha, hane]
    cases hb : b64 a with
    | error e0 =>
      simp only [handler_main, hvu, hpu, hpa, hb]
      exact ⟨trivial, trivial⟩
    | ok bs =>
      simp only [handler_main, hvu, hpu, hpa, hb]
      exact handlerMainRun_fields _ _ _ _ _ _ _ _ _ _

/-- Claim C10 (witness): with all three audio sources supplied at once, both
handlers pick the uploaded file and perform no download and no decode. -/
theorem source_precedence_witness :
    ((handler_py mGood t9 dlFail b64Ok encX fsIn evAll ("1")).source
        = some .upload ∧
      (handler_py mGood t9 dlFail b64Ok encX fsIn evAll ("1")).actions = []) ∧
    ((handler_main mGood t9 dlFail b64Ok encX fsIn evAll ("/tmp/t")).source
        = some .upload ∧
      (handler_main mGood t9 dlFail b64Ok encX fsIn evAll ("/tmp/t")).actions = []) :=
  ⟨source_precedence.1 mGood t9 dlFail b64Ok encX fsIn evAll ("1") ("up.wav")
      (by decide),
   source_precedence.2.2.2.1 mGood t9 dlFail b64Ok encX fsIn evAll ("/tmp/t")
      ("up.wav") (by decide)⟩
